import Mathlib

/-!
A shallow embedding of the `cloaks-signalin` realtime signaling relay
(`src/index.js`) together with proofs about its behavior.

JavaScript `Map`s are modelled as association lists with unique keys
(`mapGet` / `mapSet` / `mapDelete` / key-presence via `Option.isSome`),
JavaScript `Set`s as insertion-ordered duplicate-free lists
(`setAdd` / `setDelete`).  Connections (`ws` objects) are identified by a
`Nat` handle; their mutable fields live in a `Conn` record held in the
server state.  Sends are recorded as `(recipient handle, message)` pairs
in the order the code performs them.
-/

namespace CloaksSignalin

/-- `Map.get`: first binding of the key, if any. -/
def mapGet {α β : Type} [DecidableEq α] : List (α × β) → α → Option β
  | [], _ => none
  | (k', v) :: rest, k => if k' = k then some v else mapGet rest k

/-- `Map.set`: replace an existing binding in place, else append. -/
def mapSet {α β : Type} [DecidableEq α] : List (α × β) → α → β → List (α × β)
  | [], k, v => [(k, v)]
  | (k', v') :: rest, k, v =>
    if k' = k then (k, v) :: rest else (k', v') :: mapSet rest k v

/-- `Map.delete`: remove the first binding of the key. -/
def mapDelete {α β : Type} [DecidableEq α] : List (α × β) → α → List (α × β)
  | [], _ => []
  | (k', v') :: rest, k => if k' = k then rest else (k', v') :: mapDelete rest k

/-- `Set.add`: append if absent (JS sets keep insertion order). -/
def setAdd {α : Type} [DecidableEq α] (s : List α) (x : α) : List α :=
  if x ∈ s then s else s ++ [x]

/-- `Set.delete`. -/
def setDelete {α : Type} [DecidableEq α] (s : List α) (x : α) : List α :=
  s.erase x

/-- JS truthiness of an optional string field: `undefined`/`null` and the
empty string are falsy, everything else truthy. -/
def strTruthy : Option String → Bool
  | none => false
  | some s => decide (s ≠ "")

/-- Modelled from the spec: the external one-way password-hashing capability
(`bcrypt.hash`, out of scope of the source, consumed as an opaque
`hash(secret) -> digest`).  Modelled as an injective digest function. -/
def bcryptHash (password : String) : String := password

/-- Modelled from the spec: the external verification capability
(`bcrypt.compare`): `verify(secret, digest)` holds exactly when the digest
is the hash of the secret. -/
def bcryptCompare (password digest : String) : Bool :=
  bcryptHash password == digest

/-! ## Connection admission (`wss.on('connection')`) and per-IP accounting -/

/--
`wss.on('connection')`: compute `currentIPCount = (connectionsPerIP.get(ip) || 0) + 1`;
if it exceeds 20 the socket is terminated by an early `return` — before
`connectionsPerIP.set` runs and before any `message`/`close` handler is
attached.  Returns the updated counter map and whether the connection was
admitted (handlers attached).
-/
def admitConnection (counts : List (String × Nat)) (ip : String) :
    List (String × Nat) × Bool :=
  let currentIPCount := (mapGet counts ip).getD 0 + 1
  if currentIPCount > 20 then (counts, false)
  else (mapSet counts ip currentIPCount, true)

/-- The per-IP part of `ws.on('close')`: decrement the counter; delete the
key when the result reaches zero. -/
def closeDecrement (counts : List (String × Nat)) (ip : String) :
    List (String × Nat) :=
  let count := (mapGet counts ip).getD 0 - 1
  if count ≤ 0 then mapDelete counts ip else mapSet counts ip count

/-! ## Rate limiter (per-frame prologue of `ws.on('message')`) -/

/-- Per-connection rate-limit window: start timestamp and message count. -/
structure RateState where
  msgTs : Nat
  msgCount : Nat
deriving Repr, DecidableEq

/-- `if (now - ws.msgTs > 1000) { ws.msgTs = now; ws.msgCount = 0; }` -/
def rateWindow (st : RateState) (now : Nat) : RateState :=
  if now - st.msgTs > 1000 then { msgTs := now, msgCount := 0 } else st

/-- One inbound frame through the rate limiter:
`if (++ws.msgCount > 50) return ws.close(1011)`.  Returns the new window
state and the close code, if the connection was closed. -/
def rateLimitStep (st : RateState) (now : Nat) : RateState × Option Nat :=
  let w := rateWindow st now
  let w2 := { w with msgCount := w.msgCount + 1 }
  (w2, if w2.msgCount > 50 then some 1011 else none)

/-- Run a list of frame-arrival times through the rate limiter, stopping at
the first close (a closed socket processes no further frames). -/
def rateRun : RateState → List Nat → RateState × Option Nat
  | st, [] => (st, none)
  | st, t :: ts =>
    let r := rateLimitStep st t
    match r.2 with
    | some code => (r.1, some code)
    | none => rateRun r.1 ts

/-! ## Server state and outbound messages -/

/-- The mutable fields the code attaches to a `ws` object (`ws.id`,
`ws.room`, `ws.alias`, `ws.peerId`) plus its open/closed readyState. -/
structure Conn where
  id : String
  room : Option String := none
  aliasName : Option String := none
  peerId : Option String := none
  isOpen : Bool := true
deriving Repr, DecidableEq

/-- A cloak room: member set, optional password digest, creation time. -/
structure Room where
  clients : List Nat
  password : Option String
  createdAt : Nat
deriving Repr, DecidableEq

/-- Messages the relay originates (shape of the JSON objects it sends).
`peerFound` carries an `Option String` because `requesterWs.peerId` may be
`undefined`, in which case the serialized object has no `peerId` field. -/
inductive OutMsg where
  | errorMsg (message : String)
  | joined (room : String) (yourId : String) (peers : List (String × String))
  | peerJoined (peerId : String) (aliasName : String)
  | peerLeft (peerId : String)
  | registered (peerId : String)
  | peerFound (peerId : Option String)
  | signalFwd (payload : String) (fromPeerId : String)
  | forwarded (payload : String) (fromPeerId : Option String)
deriving Repr, DecidableEq

/-- Sends performed by one handler invocation, in program order. -/
abbrev Sends := List (Nat × OutMsg)

/-- The process-wide shared collections.  `msgClients` is
`appClients.get('cudi-messenger')`: `none` while the outer `appClients`
map has no entry for that key yet. -/
structure ServerState where
  conns : List (Nat × Conn)
  cloakRooms : List (String × Room)
  msgClients : Option (List (String × Nat))
  pendingMatches : List (String × Nat)
deriving Repr, DecidableEq

/-- `{id: c.id, alias: c.alias}` for a member handle, if the member's
connection record exists. -/
def peerEntry (st : ServerState) (m : Nat) : Option (String × String) :=
  (mapGet st.conns m).map (fun mc => (mc.id, mc.aliasName.getD ""))

/-- `broadcastToRoom(roomId, messageObj, sender, targetId)`: send to every
member of the room that is not the sender and is open; when `targetId` is
truthy, only to the member whose `id` equals it. -/
def broadcastToRoom (st : ServerState) (roomId : String) (msg : OutMsg)
    (sender : Option Nat) (targetId : Option String) : Sends :=
  match mapGet st.cloakRooms roomId with
  | none => []
  | some room =>
    room.clients.filterMap (fun m =>
      match mapGet st.conns m with
      | none => none
      | some conn =>
        if some m = sender then none
        else if conn.isOpen = false then none
        else if strTruthy targetId && decide (targetId ≠ some conn.id) then none
        else some (m, msg))

/-- `data.alias || 'Cloaker'`. -/
def resolveAlias (aliasArg : Option String) : String :=
  if strTruthy aliasArg then aliasArg.getD "" else "Cloaker"

/-- The success tail of the `join` case: tag `ws.room`/`ws.alias`, add the
connection to the member set, send the `joined` response (peers = members
other than the joiner, as id/alias pairs), then broadcast `peer_joined` to
the pre-existing members. -/
def cloakJoinAdmit (st : ServerState) (c : Nat) (conn : Conn)
    (roomName : String) (room : Room) (aliasArg : Option String) :
    ServerState × Sends :=
  let newAlias := resolveAlias aliasArg
  let conn2 := { conn with room := some roomName, aliasName := some newAlias }
  let stA := { st with conns := mapSet st.conns c conn2 }
  let room2 := { room with clients := setAdd room.clients c }
  let stB := { stA with cloakRooms := mapSet stA.cloakRooms roomName room2 }
  let peers := room2.clients.filterMap
    (fun m => if m = c then none else peerEntry stB m)
  (stB, (c, OutMsg.joined roomName conn2.id peers) ::
    broadcastToRoom stB roomName (OutMsg.peerJoined conn2.id newAlias)
      (some c) none)

/-- `if (!cloakRooms.has(data.room))`: create the room lazily, hashing the
supplied password when truthy, storing `null` otherwise. -/
def ensureRoom (st : ServerState) (roomName : String)
    (password : Option String) (now : Nat) : ServerState :=
  if (mapGet st.cloakRooms roomName).isSome then st
  else
    let passwordHash :=
      if strTruthy password then some (bcryptHash (password.getD "")) else none
    { st with cloakRooms :=
        mapSet st.cloakRooms roomName ⟨[], passwordHash, now⟩ }

/-- `handleCloakLogic` `case 'join'`. -/
def handleCloakJoin (st : ServerState) (c : Nat) (now : Nat)
    (roomArg password aliasArg : Option String) : ServerState × Sends :=
  match mapGet st.conns c with
  | none => (st, [])
  | some conn =>
    if strTruthy roomArg then
      let roomName := roomArg.getD ""
      let st1 := ensureRoom st roomName password now
      match mapGet st1.cloakRooms roomName with
      | none => (st1, [])
      | some room =>
        if strTruthy room.password then
          if strTruthy password then
            if bcryptCompare (password.getD "") (room.password.getD "") then
              cloakJoinAdmit st1 c conn roomName room aliasArg
            else (st1, [(c, OutMsg.errorMsg "Wrong password")])
          else (st1, [(c, OutMsg.errorMsg "Password required")])
        else cloakJoinAdmit st1 c conn roomName room aliasArg
    else (st, [])

/-- `handleCloakLogic` `case 'signal'`: re-broadcast the payload with the
sender's id stamped on, optionally narrowed to one target id. -/
def handleCloakSignal (st : ServerState) (c : Nat) (payload : String)
    (targetPeerId : Option String) : ServerState × Sends :=
  match mapGet st.conns c with
  | none => (st, [])
  | some conn =>
    if strTruthy conn.room then
      (st, broadcastToRoom st (conn.room.getD "")
        (OutMsg.signalFwd payload conn.id) (some c) targetPeerId)
    else (st, [])

/-- `if (!appClients.has('cudi-messenger')) appClients.set('cudi-messenger', new Map())`. -/
def ensureMsgClients (st : ServerState) : ServerState :=
  match st.msgClients with
  | some _ => st
  | none => { st with msgClients := some [] }

/-- `handleMessengerLogic` `case 'register'`: bind peerId → connection,
ack, and resolve a pending match if one exists (notifying both sides only
when the requester is still open; the match is deleted either way). -/
def handleRegister (st : ServerState) (c : Nat) (peerId : Option String) :
    ServerState × Sends :=
  let st0 := ensureMsgClients st
  match mapGet st0.conns c with
  | none => (st0, [])
  | some conn =>
    if strTruthy peerId then
      let pid := peerId.getD ""
      let clients := mapSet (st0.msgClients.getD []) pid c
      let conn2 := { conn with peerId := some pid }
      let st1 := { st0 with msgClients := some clients, conns := mapSet st0.conns c conn2 }
      let ack : Sends := [(c, OutMsg.registered pid)]
      match mapGet st1.pendingMatches pid with
      | none => (st1, ack)
      | some r =>
        let extra : Sends :=
          match mapGet st1.conns r with
          | none => []
          | some rconn =>
            if rconn.isOpen then
              [(r, OutMsg.peerFound (some pid)),
               (c, OutMsg.peerFound rconn.peerId)]
            else []
        ({ st1 with pendingMatches := mapDelete st1.pendingMatches pid },
         ack ++ extra)
    else (st0, [])

/-- `handleMessengerLogic` `case 'find_peer'`: immediate hit, or record a
pending match (last caller wins). -/
def handleFindPeer (st : ServerState) (c : Nat)
    (targetPeerId : Option String) : ServerState × Sends :=
  let st0 := ensureMsgClients st
  match mapGet st0.conns c with
  | none => (st0, [])
  | some _ =>
    if strTruthy targetPeerId then
      let tid := targetPeerId.getD ""
      if (mapGet (st0.msgClients.getD []) tid).isSome then
        (st0, [(c, OutMsg.peerFound (some tid))])
      else
        ({ st0 with pendingMatches := mapSet st0.pendingMatches tid c }, [])
    else (st0, [])

/-- `handleMessengerLogic` `case 'offer'/'answer'/'candidate'`: forward the
payload to the registered open target, stamping `fromPeerId`. -/
def handleForward (st : ServerState) (c : Nat)
    (targetPeerId : Option String) (payload : String) :
    ServerState × Sends :=
  let st0 := ensureMsgClients st
  match mapGet st0.conns c with
  | none => (st0, [])
  | some conn =>
    if strTruthy targetPeerId then
      match mapGet (st0.msgClients.getD []) (targetPeerId.getD "") with
      | none => (st0, [])
      | some t =>
        match mapGet st0.conns t with
        | none => (st0, [])
        | some tconn =>
          if tconn.isOpen then
            (st0, [(t, OutMsg.forwarded payload conn.peerId)])
          else (st0, [])
    else (st0, [])

/-- The `setTimeout` body armed by a `find_peer` miss: after the TTL,
delete the pending match only if it still points at the same requester. -/
def expirePending (st : ServerState) (tid : String) (c : Nat) : ServerState :=
  if mapGet st.pendingMatches tid = some c then
    { st with pendingMatches := mapDelete st.pendingMatches tid }
  else st

/-- First half of `limpiarRecursos(ws)`:
`if (ws.room && cloakRooms.has(ws.room))` — remove the connection from its
room's member set, broadcast `peer_left` (no sender exclusion), and delete
the room when it is now empty. -/
def limpiarRoom (st : ServerState) (c : Nat) (conn : Conn) :
    ServerState × Sends :=
  if strTruthy conn.room then
    let rn := conn.room.getD ""
    match mapGet st.cloakRooms rn with
    | none => (st, [])
    | some room =>
      let room2 := { room with clients := setDelete room.clients c }
      let stA := { st with cloakRooms := mapSet st.cloakRooms rn room2 }
      let sends := broadcastToRoom stA rn (OutMsg.peerLeft conn.id) none none
      let stB :=
        if room2.clients.isEmpty then
          { stA with cloakRooms := mapDelete stA.cloakRooms rn }
        else stA
      (stB, sends)
  else (st, [])

/-- Second half of `limpiarRecursos(ws)`:
`if (ws.peerId && appClients.has('cudi-messenger'))` — drop the directory
entry under `ws.peerId` and purge pending matches whose requester is this
connection. -/
def limpiarPeer (st : ServerState) (c : Nat) (conn : Conn) : ServerState :=
  if strTruthy conn.peerId && st.msgClients.isSome then
    let pid := conn.peerId.getD ""
    { st with
      msgClients := some (mapDelete (st.msgClients.getD []) pid),
      pendingMatches :=
        st.pendingMatches.filter (fun p => decide (p.2 ≠ c)) }
  else st

/-- `limpiarRecursos(ws)`: room teardown, then peer-directory teardown. -/
def limpiarRecursos (st : ServerState) (c : Nat) : ServerState × Sends :=
  match mapGet st.conns c with
  | none => (st, [])
  | some conn =>
    let r := limpiarRoom st c conn
    (limpiarPeer r.1 c conn, r.2)

/-- `ws.on('close')` (the shared-state part): the socket is closed by the
time the handler runs, then `limpiarRecursos` fires. -/
def disconnect (st : ServerState) (c : Nat) : ServerState × Sends :=
  match mapGet st.conns c with
  | none => (st, [])
  | some conn =>
    let st1 := { st with conns := mapSet st.conns c { conn with isOpen := false } }
    limpiarRecursos st1 c

/-- Admission of a new connection with a fresh random id (the id is a
parameter here; the source draws it from a CSPRNG). -/
def connectConn (st : ServerState) (c : Nat) (wsid : String) : ServerState :=
  { st with conns := mapSet st.conns c ⟨wsid, none, none, none, true⟩ }

/-- One inbound event of the relay, as dispatched by the message router
(`appType`/`type`), plus connection lifecycle and timer events. -/
inductive Event where
  | connect (c : Nat) (wsid : String)
  | join (c : Nat) (now : Nat) (room password aliasArg : Option String)
  | signal (c : Nat) (payload : String) (targetPeerId : Option String)
  | register (c : Nat) (peerId : Option String)
  | findPeer (c : Nat) (targetPeerId : Option String)
  | forward (c : Nat) (targetPeerId : Option String) (payload : String)
  | expire (targetPeerId : String) (requester : Nat)
  | disconnect (c : Nat)
deriving Repr, DecidableEq

/-- Small-step semantics: one event against the shared state. -/
def stepEv (st : ServerState) : Event → ServerState × Sends
  | .connect c wsid => (connectConn st c wsid, [])
  | .join c now r p a => handleCloakJoin st c now r p a
  | .signal c payload t => handleCloakSignal st c payload t
  | .register c pid => handleRegister st c pid
  | .findPeer c tid => handleFindPeer st c tid
  | .forward c tid payload => handleForward st c tid payload
  | .expire tid r => (expirePending st tid r, [])
  | .disconnect c => disconnect st c

/-- Run a list of events, collecting each step's sends. -/
def runEvents : ServerState → List Event → ServerState × List Sends
  | st, [] => (st, [])
  | st, e :: es =>
    let r := stepEv st e
    let rest := runEvents r.1 es
    (rest.1, r.2 :: rest.2)

/-- The `peers` list of the first `joined` message addressed to `c`. -/
def joinedPeers : Sends → Nat → Option (List (String × String))
  | [], _ => none
  | (d, OutMsg.joined _ _ peers) :: rest, c =>
    if d = c then some peers else joinedPeers rest c
  | _ :: rest, c => joinedPeers rest c

/-- The id field of a connection record, `""` if the handle is unknown. -/
def connIdAt (st : ServerState) (c : Nat) : String :=
  ((mapGet st.conns c).map Conn.id).getD ""

/-- The alias field of a connection record, `""` if unset or unknown. -/
def connAliasAt (st : ServerState) (c : Nat) : String :=
  ((mapGet st.conns c).map (fun conn => conn.aliasName.getD "")).getD ""

/-- The id/alias pair a member contributes to a `joined` peers list. -/
def dirPair (st : ServerState) (d : Nat) : String × String :=
  (connIdAt st d, connAliasAt st d)

/-- The member list of a room, `[]` if the room does not exist. -/
def roomClientsAt (st : ServerState) (R : String) : List Nat :=
  ((mapGet st.cloakRooms R).map Room.clients).getD []

/-- The join events of a sequence of joiners `(handle, alias)` to room `R`. -/
def mkJoins (R : String) (now : Nat) (js : List (Nat × Option String)) :
    List Event :=
  js.map (fun p => Event.join p.1 now (some R) none p.2)

/-! ## Basic lemmas about the map and set embeddings -/

theorem mapGet_set_self {α β : Type} [DecidableEq α]
    (m : List (α × β)) (k : α) (v : β) :
    mapGet (mapSet m k v) k = some v := by
  induction m with
  | nil => simp [mapGet, mapSet]
  | cons p rest ih =>
    obtain ⟨k', v'⟩ := p
    by_cases h : k' = k <;> simp [mapGet, mapSet, h, ih]

theorem mapGet_set_ne {α β : Type} [DecidableEq α]
    (m : List (α × β)) (k k' : α) (v : β) (h : k' ≠ k) :
    mapGet (mapSet m k v) k' = mapGet m k' := by
  have hne : k ≠ k' := fun hh => h hh.symm
  induction m with
  | nil => simp [mapGet, mapSet, hne]
  | cons p rest ih =>
    obtain ⟨k'', v''⟩ := p
    by_cases hk : k'' = k
    · subst hk
      simp [mapGet, mapSet, hne]
    · simp only [mapSet, if_neg hk, mapGet]
      by_cases hk' : k'' = k' <;> simp [hk', ih]

theorem mapGet_filter_ne {α β : Type} [DecidableEq α] [DecidableEq β]
    (m : List (α × β)) (k : α) (c : β) :
    mapGet (m.filter (fun p => decide (p.2 ≠ c))) k ≠ some c := by
  induction m with
  | nil => simp [mapGet]
  | cons p rest ih =>
    obtain ⟨k', v'⟩ := p
    by_cases hv : v' = c
    · simpa [List.filter_cons, hv] using ih
    · by_cases hk : k' = k
      · simp [List.filter_cons, mapGet, hv, hk]
      · simp only [List.filter_cons, mapGet]
        rw [if_pos (by simp [hv]), mapGet, if_neg hk]
        simpa using ih

theorem setAdd_of_mem {α : Type} [DecidableEq α] {s : List α} {x : α}
    (h : x ∈ s) : setAdd s x = s := by
  simp [setAdd, h]

theorem setAdd_of_not_mem {α : Type} [DecidableEq α] {s : List α} {x : α}
    (h : x ∉ s) : setAdd s x = s ++ [x] := by
  simp [setAdd, h]

theorem mem_setAdd_self {α : Type} [DecidableEq α] (s : List α) (x : α) :
    x ∈ setAdd s x := by
  by_cases h : x ∈ s <;> simp [setAdd, h]

theorem strTruthy_some_ne {s : String} (h : s ≠ "") :
    strTruthy (some s) = true := by
  simp [strTruthy, h]

/-! ## Claim C1 -/

/-- C1: the claim says a connection that joins room B while a member of
room A is removed from A's member set.  The code never removes it: after
conn 1 joins "A" and then "B", room "A" still lists 1 as a member even
though the connection's own `room` field is "B"; after conn 1 disconnects,
room "A" still retains it (only "B" is cleaned up), so "A" holds a
dangling member forever. -/
theorem C1_second_join_keeps_old_membership :
    (let st0 : ServerState :=
       ⟨[(1, ⟨"a1", none, none, none, true⟩)], [], none, []⟩
     let st1 := (stepEv st0 (Event.join 1 0 (some "A") none none)).1
     let st2 := (stepEv st1 (Event.join 1 0 (some "B") none none)).1
     mapGet st2.cloakRooms "A" = some ⟨[1], none, 0⟩ ∧
     (mapGet st2.conns 1).map Conn.room = some (some "B") ∧
     mapGet ((stepEv st2 (Event.disconnect 1)).1).cloakRooms "A" =
       some ⟨[1], none, 0⟩ ∧
     mapGet ((stepEv st2 (Event.disconnect 1)).1).cloakRooms "B" = none) := by
  decide

/-! ## Claim C2 -/

/-- C2: the claim says a connection's disconnect removes only its own
directory entry, never an entry a later `register` rebound to a different
connection.  The code deletes by the closer's stale `ws.peerId` without an
ownership check: conn 1 registers "P", conn 2 re-registers "P" (directory
entry "P" → 2), then conn 1's disconnect deletes the entry owned by 2. -/
theorem C2_disconnect_removes_rebound_entry :
    (let st0 : ServerState :=
       ⟨[(1, ⟨"a1", none, none, none, true⟩),
         (2, ⟨"a2", none, none, none, true⟩)], [], none, []⟩
     let st1 := (stepEv st0 (Event.register 1 (some "P"))).1
     let st2 := (stepEv st1 (Event.register 2 (some "P"))).1
     let st3 := (stepEv st2 (Event.disconnect 1)).1
     st2.msgClients = some [("P", 2)] ∧ st3.msgClients = some []) := by
  decide

/-! ## Claim C3 -/

/-- C3 counterexample: a requester that never registered a peer id creates
a pending match via `find_peer("X")` and then closes; the pending match is
NOT deleted on close (the cleanup scan is guarded by `ws.peerId`), contrary
to the claim's "regardless of whether that connection ever registered". -/
theorem C3_counterexample :
    (let st0 : ServerState :=
       ⟨[(1, ⟨"a1", none, none, none, true⟩)], [], none, []⟩
     let st1 := (stepEv st0 (Event.findPeer 1 (some "X"))).1
     let st2 := (stepEv st1 (Event.disconnect 1)).1
     mapGet st2.pendingMatches "X" = some 1 ∧
     (mapGet st2.conns 1).map Conn.peerId = some none ∧
     (mapGet st2.conns 1).map Conn.isOpen = some false) := by
  decide

theorem limpiarRoom_msgClients (st : ServerState) (c : Nat) (conn : Conn) :
    ((limpiarRoom st c conn).1).msgClients = st.msgClients := by
  unfold limpiarRoom
  split
  · dsimp only
    split
    · rfl
    · dsimp only
      split <;> rfl
  · rfl

theorem limpiarRoom_pendingMatches (st : ServerState) (c : Nat) (conn : Conn) :
    ((limpiarRoom st c conn).1).pendingMatches = st.pendingMatches := by
  unfold limpiarRoom
  split
  · dsimp only
    split
    · rfl
    · dsimp only
      split <;> rfl
  · rfl

theorem limpiarRoom_conns (st : ServerState) (c : Nat) (conn : Conn) :
    ((limpiarRoom st c conn).1).conns = st.conns := by
  unfold limpiarRoom
  split
  · dsimp only
    split
    · rfl
    · dsimp only
      split <;> rfl
  · rfl

theorem ensureMsgClients_conns (st : ServerState) :
    (ensureMsgClients st).conns = st.conns := by
  unfold ensureMsgClients
  split <;> rfl

theorem ensureMsgClients_pendingMatches (st : ServerState) :
    (ensureMsgClients st).pendingMatches = st.pendingMatches := by
  unfold ensureMsgClients
  split <;> rfl

/-- When the closing connection has a (truthy) registered peer id and the
messenger namespace exists, `limpiarRecursos` filters out every pending
match whose requester is that connection. -/
theorem limpiar_pendingMatches_of_peerId (st : ServerState) (c : Nat)
    (conn : Conn) (hc : mapGet st.conns c = some conn)
    (hguard : (strTruthy conn.peerId && st.msgClients.isSome) = true) :
    ((limpiarRecursos st c).1).pendingMatches =
      st.pendingMatches.filter (fun p => decide (p.2 ≠ c)) := by
  unfold limpiarRecursos
  rw [hc]
  dsimp only
  unfold limpiarPeer
  rw [limpiarRoom_msgClients, limpiarRoom_pendingMatches]
  rw [if_pos hguard]

/-- C3 amended: on close, pending matches whose requester is the closing
connection are purged only when the connection had a (truthy) registered
peer id and the messenger namespace exists; independently, a closed
requester is never notified by a later `register` (the resolution path
checks the requester's readyState before sending, so every send of that
step goes to the registering connection or to an open requester). -/
theorem C3_requester_close_cleanup :
    (∀ (st : ServerState) (c : Nat) (conn : Conn),
        mapGet st.conns c = some conn → strTruthy conn.peerId = true →
        st.msgClients.isSome = true →
        ∀ tgt, mapGet ((stepEv st (Event.disconnect c)).1).pendingMatches tgt ≠
          some c) ∧
    (∀ (st : ServerState) (c w : Nat) (conn : Conn) (pid : Option String),
        mapGet st.conns c = some conn → conn.isOpen = false → w ≠ c →
        ∀ m : OutMsg, (c, m) ∉ (stepEv st (Event.register w pid)).2) := by
  constructor
  · intro st c conn hc hp hm tgt
    show mapGet ((disconnect st c).1).pendingMatches tgt ≠ some c
    unfold disconnect
    rw [hc]
    dsimp only
    rw [limpiar_pendingMatches_of_peerId _ c { conn with isOpen := false }
      (mapGet_set_self _ _ _) (by simp [hp, hm])]
    exact mapGet_filter_ne _ _ _
  · intro st c w conn pid hc hclosed hw m
    show (c, m) ∉ (handleRegister st w pid).2
    unfold handleRegister
    have hc0 : mapGet (ensureMsgClients st).conns c = some conn := by
      rw [ensureMsgClients_conns]; exact hc
    have hcw : ¬ c = w := fun hh => hw hh.symm
    cases hmw : mapGet (ensureMsgClients st).conns w with
    | none => simp [hmw]
    | some wconn =>
      simp only [hmw]
      by_cases hpid : strTruthy pid = true
      · rw [if_pos hpid]
        cases hpm : mapGet (ensureMsgClients st).pendingMatches (pid.getD "") with
        | none => simp [hpm, Prod.mk.injEq, hcw]
        | some r =>
          simp only [hpm]
          by_cases hrc : r = c
          · subst hrc
            have hmrc : mapGet (mapSet (ensureMsgClients st).conns w
                { wconn with peerId := some (pid.getD "") }) r = some conn := by
              rw [mapGet_set_ne _ _ _ _ (fun hh => hw hh.symm)]
              exact hc0
            simp [hmrc, hclosed, Prod.mk.injEq, hcw]
          · have hcr : ¬ c = r := fun hh => hrc hh.symm
            cases hmr : mapGet (mapSet (ensureMsgClients st).conns w
                { wconn with peerId := some (pid.getD "") }) r with
            | none => simp [hmr, Prod.mk.injEq, hcw]
            | some rconn =>
              by_cases hro : rconn.isOpen = true <;>
                simp [hmr, hro, Prod.mk.injEq, hcw, hcr]
      · rw [if_neg hpid]
        simp

/-- Witness for C3's amended theorem: a registered requester's pending
match is purged on its disconnect, and a register against a closed
requester sends it nothing. -/
theorem C3_requester_close_cleanup_witness :
    mapGet ((stepEv
        ⟨[(1, ⟨"a1", none, none, some "Q", true⟩)], [],
          some [("Q", 1)], [("X", 1)]⟩
        (Event.disconnect 1)).1).pendingMatches "X" ≠ some 1 ∧
    ((1 : Nat), OutMsg.peerFound (some "X")) ∉
      (stepEv ⟨[(1, ⟨"a1", none, none, none, false⟩),
                (2, ⟨"a2", none, none, none, true⟩)], [],
               some [], [("X", 1)]⟩
        (Event.register 2 (some "X"))).2 :=
  ⟨C3_requester_close_cleanup.1
      ⟨[(1, ⟨"a1", none, none, some "Q", true⟩)], [],
        some [("Q", 1)], [("X", 1)]⟩ 1 ⟨"a1", none, none, some "Q", true⟩
      (by decide) (by decide) (by decide) "X",
   C3_requester_close_cleanup.2
      ⟨[(1, ⟨"a1", none, none, none, false⟩),
        (2, ⟨"a2", none, none, none, true⟩)], [], some [], [("X", 1)]⟩
      1 2 ⟨"a1", none, none, none, false⟩ (some "X")
      (by decide) (by decide) (by decide) (OutMsg.peerFound (some "X"))⟩

/-! ## Shared lemmas for the peer directory (register / find_peer) -/

theorem mapGet_eq_none_of_not_mem {α β : Type} [DecidableEq α]
    (m : List (α × β)) (k : α) (h : k ∉ m.map Prod.fst) :
    mapGet m k = none := by
  induction m with
  | nil => rfl
  | cons p rest ih =>
    obtain ⟨k', v'⟩ := p
    simp only [List.map_cons, List.mem_cons] at h
    push_neg at h
    simp only [mapGet, if_neg (Ne.symm h.1)]
    exact ih h.2

theorem mapGet_delete_self {α β : Type} [DecidableEq α]
    (m : List (α × β)) (k : α) (hnd : (m.map Prod.fst).Nodup) :
    mapGet (mapDelete m k) k = none := by
  induction m with
  | nil => rfl
  | cons p rest ih =>
    obtain ⟨k', v'⟩ := p
    simp only [List.map_cons, List.nodup_cons] at hnd
    by_cases hk : k' = k
    · subst hk
      simp only [mapDelete, if_pos rfl]
      exact mapGet_eq_none_of_not_mem rest k' hnd.1
    · simp only [mapDelete, if_neg hk, mapGet, if_neg hk]
      exact ih hnd.2

/-- A `register` that finds no pending match for its peer id sends no
`peer_found` to anyone (only the `registered` ack to the caller). -/
theorem register_no_match_sends (st : ServerState) (w : Nat) (X : String)
    (h : mapGet st.pendingMatches X = none) :
    ∀ (d : Nat) (pid : Option String),
      (d, OutMsg.peerFound pid) ∉ (handleRegister st w (some X)).2 := by
  intro d pid
  unfold handleRegister
  have hp : mapGet (ensureMsgClients st).pendingMatches X = none := by
    rw [ensureMsgClients_pendingMatches]; exact h
  cases hmw : mapGet (ensureMsgClients st).conns w with
  | none => simp [hmw]
  | some wconn =>
    simp only [hmw]
    by_cases hX : strTruthy (some X) = true
    · rw [if_pos hX]
      simp [Option.getD_some, hp]
    · rw [if_neg hX]
      simp

/-- Resolution of a pending match by `register`: exact send list and the
resulting pending-match map, when the requester is a distinct open
connection. -/
theorem register_resolution (st : ServerState) (r w : Nat) (rconn : Conn)
    (X : String) (hX : X ≠ "")
    (hpm : mapGet st.pendingMatches X = some r)
    (hr : mapGet st.conns r = some rconn) (hro : rconn.isOpen = true)
    (hw : (mapGet st.conns w).isSome = true) (hwr : w ≠ r) :
    (handleRegister st w (some X)).2 =
      [(w, OutMsg.registered X), (r, OutMsg.peerFound (some X)),
       (w, OutMsg.peerFound rconn.peerId)] ∧
    ((handleRegister st w (some X)).1).pendingMatches =
      mapDelete st.pendingMatches X := by
  obtain ⟨wconn, hwc⟩ := Option.isSome_iff_exists.mp hw
  have hwc0 : mapGet (ensureMsgClients st).conns w = some wconn := by
    rw [ensureMsgClients_conns]; exact hwc
  have hpm0 : mapGet (ensureMsgClients st).pendingMatches X = some r := by
    rw [ensureMsgClients_pendingMatches]; exact hpm
  have hr2 : mapGet (mapSet (ensureMsgClients st).conns w
      { wconn with peerId := some X }) r = some rconn := by
    rw [mapGet_set_ne _ _ _ _ (fun hh => hwr hh.symm), ensureMsgClients_conns]
    exact hr
  constructor
  · unfold handleRegister
    simp only [hwc0]
    rw [if_pos (strTruthy_some_ne hX)]
    simp only [Option.getD_some, hpm0, hr2, hro, if_true]
    rfl
  · unfold handleRegister
    simp only [hwc0]
    rw [if_pos (strTruthy_some_ne hX)]
    simp only [Option.getD_some, ensureMsgClients_pendingMatches, hpm]

/-! ## Claim C4 -/

/-- C4 counterexample: with 20 open connections from an address, the 21st
attempt is terminated, but — contrary to the claim — the counter increment
is NOT retained: the handler returns before `connectionsPerIP.set` runs
(and before any close handler is attached), so the counter stays at 20. -/
theorem C4_counterexample :
    admitConnection [("ip", 20)] "ip" = ([("ip", 20)], false) ∧
    mapGet (admitConnection [("ip", 20)] "ip").1 "ip" ≠ some 21 := by
  decide

/-- C4 amended: over the ceiling, the connection is rejected and the
counter map is left unchanged (no increment is stored, no close handler is
attached); at or under the ceiling the incremented count is stored; an
admitted connection's close decrements the counter, deleting the key when
it reaches zero. -/
theorem C4_admission_accounting :
    (∀ (counts : List (String × Nat)) (ip : String),
        (mapGet counts ip).getD 0 + 1 > 20 →
        admitConnection counts ip = (counts, false)) ∧
    (∀ (counts : List (String × Nat)) (ip : String),
        (mapGet counts ip).getD 0 + 1 ≤ 20 →
        admitConnection counts ip =
          (mapSet counts ip ((mapGet counts ip).getD 0 + 1), true)) ∧
    (∀ (counts : List (String × Nat)) (ip : String) (n : Nat),
        mapGet counts ip = some n → n ≤ 1 →
        closeDecrement counts ip = mapDelete counts ip) ∧
    (∀ (counts : List (String × Nat)) (ip : String) (n : Nat),
        mapGet counts ip = some n → 2 ≤ n →
        closeDecrement counts ip = mapSet counts ip (n - 1)) := by
  refine ⟨?_, ?_, ?_, ?_⟩
  · intro counts ip h
    simp only [admitConnection, if_pos h]
  · intro counts ip h
    simp only [admitConnection]
    rw [if_neg (by omega)]
  · intro counts ip n h hn
    simp only [closeDecrement, h, Option.getD_some]
    rw [if_pos (by omega)]
  · intro counts ip n h hn
    simp only [closeDecrement, h, Option.getD_some]
    rw [if_neg (by omega)]

/-- Witness for C4: concrete instances of all four conjuncts. -/
theorem C4_admission_accounting_witness :
    admitConnection [("a", 20)] "a" = ([("a", 20)], false) ∧
    admitConnection [] "a" = ([("a", 1)], true) ∧
    closeDecrement [("a", 1)] "a" = [] ∧
    closeDecrement [("a", 2)] "a" = [("a", 1)] :=
  ⟨C4_admission_accounting.1 [("a", 20)] "a" (by decide),
   (C4_admission_accounting.2.1 [] "a" (by decide)).trans (by decide),
   (C4_admission_accounting.2.2.1 [("a", 1)] "a" 1 (by decide)
     (by decide)).trans (by decide),
   (C4_admission_accounting.2.2.2 [("a", 2)] "a" 2 (by decide)
     (by decide)).trans (by decide)⟩

/-! ## Claim C7 -/

/-- Within one window (no second-boundary crossing), `rateRun` closes with
1011 exactly when the carried count plus the number of frames exceeds 50. -/
theorem rateRun_inWindow (t0 : Nat) :
    ∀ (ts : List Nat) (c : Nat), c ≤ 50 → (∀ t ∈ ts, t ≤ t0 + 1000) →
      (rateRun ⟨t0, c⟩ ts).2 =
        if c + ts.length > 50 then some 1011 else none := by
  intro ts
  induction ts with
  | nil =>
    intro c hc _
    simp only [rateRun, List.length_nil, Nat.add_zero]
    rw [if_neg (by omega)]
  | cons t ts ih =>
    intro c hc h
    have ht : t ≤ t0 + 1000 := h t (List.mem_cons_self t ts)
    have hwin : ¬ (t - t0 > 1000) := by omega
    by_cases hgt : c + 1 > 50
    · simp [rateRun, rateLimitStep, rateWindow, hwin, hgt]
      omega
    · have hrec := ih (c + 1) (by omega)
        (fun x hx => h x (List.mem_cons_of_mem t hx))
      simp only [rateRun, rateLimitStep, rateWindow, if_neg hwin]
      rw [if_neg hgt]
      rw [hrec]
      by_cases hfin : 50 < c + 1 + ts.length
      · rw [if_pos hfin, if_pos (by simp only [List.length_cons]; omega)]
      · rw [if_neg hfin, if_neg (by simp only [List.length_cons]; omega)]

/-- C7: 51 frames inside one 1000 ms rate window close the connection with
code 1011, 50 frames do not, and whenever more than 1000 ms elapsed since
the window's start timestamp the window is reset to (now, 0) before the
count is incremented. -/
theorem C7_rate_limit :
    (∀ (st : RateState) (now : Nat), now - st.msgTs > 1000 →
        rateWindow st now = ⟨now, 0⟩) ∧
    (∀ (t0 : Nat) (ts : List Nat), (∀ t ∈ ts, t ≤ t0 + 1000) →
        ts.length = 51 → (rateRun ⟨t0, 0⟩ ts).2 = some 1011) ∧
    (∀ (t0 : Nat) (ts : List Nat), (∀ t ∈ ts, t ≤ t0 + 1000) →
        ts.length = 50 → (rateRun ⟨t0, 0⟩ ts).2 = none) := by
  refine ⟨?_, ?_, ?_⟩
  · intro st now h
    simp [rateWindow, h]
  · intro t0 ts h hlen
    rw [rateRun_inWindow t0 ts 0 (by omega) h, hlen]
    simp
  · intro t0 ts h hlen
    rw [rateRun_inWindow t0 ts 0 (by omega) h, hlen]
    simp

/-- Witness for C7: a burst of 51 frames at time 5 is closed with 1011, a
burst of 50 is not, and a frame 2000 ms after the window start resets the
window. -/
theorem C7_rate_limit_witness :
    rateWindow ⟨0, 7⟩ 2000 = ⟨2000, 0⟩ ∧
    (rateRun ⟨0, 0⟩ (List.replicate 51 5)).2 = some 1011 ∧
    (rateRun ⟨0, 0⟩ (List.replicate 50 5)).2 = none :=
  ⟨C7_rate_limit.1 ⟨0, 7⟩ 2000 (by decide),
   C7_rate_limit.2.1 0 (List.replicate 51 5) (by decide) (by decide),
   C7_rate_limit.2.2 0 (List.replicate 50 5) (by decide) (by decide)⟩

/-! ## Shared lemmas for the room manager (join) -/

theorem mapGet_delete_ne {α β : Type} [DecidableEq α]
    (m : List (α × β)) (k k' : α) (h : k' ≠ k) :
    mapGet (mapDelete m k) k' = mapGet m k' := by
  induction m with
  | nil => rfl
  | cons p rest ih =>
    obtain ⟨k'', v''⟩ := p
    by_cases hk : k'' = k
    · subst hk
      simp [mapDelete, mapGet, Ne.symm h]
    · simp only [mapDelete, if_neg hk, mapGet]
      by_cases hk' : k'' = k' <;> simp [hk', ih]

theorem mem_keys_mapSet {α β : Type} [DecidableEq α]
    (m : List (α × β)) (k x : α) (v : β) :
    x ∈ (mapSet m k v).map Prod.fst → x ∈ m.map Prod.fst ∨ x = k := by
  induction m with
  | nil =>
    intro hx
    simp only [mapSet, List.map_cons, List.map_nil, List.mem_singleton] at hx
    exact Or.inr hx
  | cons p rest ih =>
    obtain ⟨k', v'⟩ := p
    intro hx
    by_cases hk : k' = k
    · subst hk
      rw [show mapSet ((k', v') :: rest) k' v = (k', v) :: rest from by
        simp [mapSet]] at hx
      simp only [List.map_cons, List.mem_cons] at hx
      rcases hx with hx | hx
      · exact Or.inr hx
      · exact Or.inl (List.mem_cons_of_mem _ hx)
    · rw [show mapSet ((k', v') :: rest) k v = (k', v') :: mapSet rest k v
          from by simp [mapSet, hk]] at hx
      simp only [List.map_cons, List.mem_cons] at hx
      rcases hx with hx | hx
      · exact Or.inl (by rw [hx]; exact List.mem_cons_self _ _)
      · rcases ih hx with hh | hh
        · exact Or.inl (List.mem_cons_of_mem _ hh)
        · exact Or.inr hh

theorem mapSet_keys_nodup {α β : Type} [DecidableEq α]
    (m : List (α × β)) (k : α) (v : β)
    (h : (m.map Prod.fst).Nodup) : ((mapSet m k v).map Prod.fst).Nodup := by
  induction m with
  | nil => simp [mapSet]
  | cons p rest ih =>
    obtain ⟨k', v'⟩ := p
    simp only [List.map_cons, List.nodup_cons] at h
    by_cases hk : k' = k
    · subst hk
      rw [show mapSet ((k', v') :: rest) k' v = (k', v) :: rest from by
        simp [mapSet]]
      simp only [List.map_cons, List.nodup_cons]
      exact h
    · rw [show mapSet ((k', v') :: rest) k v = (k', v') :: mapSet rest k v
        from by simp [mapSet, hk]]
      simp only [List.map_cons, List.nodup_cons]
      refine ⟨fun hmem => ?_, ih h.2⟩
      rcases mem_keys_mapSet rest k k' v hmem with hh | hh
      · exact h.1 hh
      · exact hk hh

theorem ensureMsgClients_cloakRooms (st : ServerState) :
    (ensureMsgClients st).cloakRooms = st.cloakRooms := by
  unfold ensureMsgClients
  split <;> rfl

theorem expirePending_cloakRooms (st : ServerState) (tid : String) (r : Nat) :
    (expirePending st tid r).cloakRooms = st.cloakRooms := by
  unfold expirePending
  split <;> rfl

theorem limpiarPeer_cloakRooms (st : ServerState) (c : Nat) (conn : Conn) :
    (limpiarPeer st c conn).cloakRooms = st.cloakRooms := by
  unfold limpiarPeer
  split <;> rfl

theorem handleCloakSignal_cloakRooms (st : ServerState) (c : Nat)
    (payload : String) (t : Option String) :
    ((handleCloakSignal st c payload t).1).cloakRooms = st.cloakRooms := by
  unfold handleCloakSignal
  split
  · rfl
  · split <;> rfl

theorem handleRegister_cloakRooms (st : ServerState) (w : Nat)
    (pid : Option String) :
    ((handleRegister st w pid).1).cloakRooms = st.cloakRooms := by
  have hbase := ensureMsgClients_cloakRooms st
  unfold handleRegister
  dsimp only
  split
  · exact hbase
  · split
    · split
      · exact hbase
      · exact hbase
    · exact hbase

theorem handleFindPeer_cloakRooms (st : ServerState) (c : Nat)
    (tid : Option String) :
    ((handleFindPeer st c tid).1).cloakRooms = st.cloakRooms := by
  have hbase := ensureMsgClients_cloakRooms st
  unfold handleFindPeer
  dsimp only
  split
  · exact hbase
  · split
    · split
      · exact hbase
      · exact hbase
    · exact hbase

theorem handleForward_cloakRooms (st : ServerState) (c : Nat)
    (tid : Option String) (payload : String) :
    ((handleForward st c tid payload).1).cloakRooms = st.cloakRooms := by
  have hbase := ensureMsgClients_cloakRooms st
  unfold handleForward
  dsimp only
  split
  · exact hbase
  · split
    · split
      · exact hbase
      · split
        · exact hbase
        · split <;> exact hbase
    · exact hbase

/-- Creating a room lazily does not disturb an already-existing room. -/
theorem ensureRoom_get_of_some (st : ServerState) (rn R : String)
    (pw : Option String) (now : Nat) (room : Room)
    (hroom : mapGet st.cloakRooms R = some room) :
    mapGet (ensureRoom st rn pw now).cloakRooms R = some room := by
  unfold ensureRoom
  by_cases hex : (mapGet st.cloakRooms rn).isSome = true
  · rw [if_pos hex]
    exact hroom
  · rw [if_neg hex]
    by_cases h : rn = R
    · subst h
      rw [hroom] at hex
      simp at hex
    · show mapGet (mapSet st.cloakRooms rn _) R = some room
      rw [mapGet_set_ne _ _ _ _ (Ne.symm h)]
      exact hroom

/-- With a room present and the password gate passing (open room, or the
original creation password supplied), `join` runs the admission tail. -/
theorem handleCloakJoin_success (st : ServerState) (c : Nat) (conn : Conn)
    (now : Nat) (R : String) (pw a : Option String) (room : Room)
    (hc : mapGet st.conns c = some conn) (hR : R ≠ "")
    (hroom : mapGet st.cloakRooms R = some room)
    (hgate : strTruthy room.password = false ∨
      (∃ p, pw = some p ∧ p ≠ "" ∧ room.password = some (bcryptHash p))) :
    handleCloakJoin st c now (some R) pw a =
      cloakJoinAdmit st c conn R room a := by
  have hens : ensureRoom st R pw now = st := by
    unfold ensureRoom
    rw [if_pos (by rw [hroom]; rfl)]
  unfold handleCloakJoin
  simp only [hc, Option.getD_some]
  rw [if_pos (strTruthy_some_ne hR), hens]
  simp only [hroom]
  rcases hgate with hfalse | ⟨p, hpw, hp, hdig⟩
  · rw [if_neg (by rw [hfalse]; simp)]
  · subst hpw
    rw [hdig]
    rw [if_pos (strTruthy_some_ne (by simpa [bcryptHash] using hp))]
    rw [if_pos (strTruthy_some_ne hp)]
    rw [if_pos (by simp [bcryptCompare, Option.getD_some])]

theorem cloakJoinAdmit_cloakRooms (st : ServerState) (c : Nat) (conn : Conn)
    (R : String) (room : Room) (a : Option String) :
    ((cloakJoinAdmit st c conn R room a).1).cloakRooms =
      mapSet st.cloakRooms R { room with clients := setAdd room.clients c } :=
  rfl

theorem cloakJoinAdmit_joinedPeers (st : ServerState) (c : Nat) (conn : Conn)
    (R : String) (room : Room) (a : Option String) :
    joinedPeers ((cloakJoinAdmit st c conn R room a).2) c =
      some ((setAdd room.clients c).filterMap (fun m =>
        if m = c then none
        else peerEntry { st with conns := mapSet st.conns c { conn with room := some R, aliasName := some (resolveAlias a) } } m)) := by
  unfold cloakJoinAdmit
  simp only [joinedPeers, if_pos rfl]
  rfl

/-- The admission tail only rewrites the member set of the joined room:
the password digest of any room that persists is unchanged. -/
theorem cloakJoinAdmit_password_at (st1 : ServerState) (c2 : Nat)
    (conn : Conn) (rn : String) (roomA : Room) (a2 : Option String)
    (R : String) (room : Room)
    (hR1 : mapGet st1.cloakRooms R = some room)
    (hrm : mapGet st1.cloakRooms rn = some roomA) :
    ∀ room2, mapGet ((cloakJoinAdmit st1 c2 conn rn roomA a2).1).cloakRooms R =
      some room2 → room2.password = room.password := by
  intro room2 h2
  rw [cloakJoinAdmit_cloakRooms] at h2
  by_cases h : rn = R
  · subst h
    rw [mapGet_set_self] at h2
    rw [hrm] at hR1
    injection hR1 with hra
    injection h2 with h2
    rw [← h2]
    show roomA.password = room.password
    rw [hra]
  · rw [mapGet_set_ne _ _ _ _ (Ne.symm h), hR1] at h2
    injection h2 with h2
    rw [← h2]

/-- One `join` by anyone never changes the password digest of a room that
persists through the step. -/
theorem handleCloakJoin_password_at (st : ServerState) (c2 now : Nat)
    (r2 p2 a2 : Option String) (R : String) (room : Room)
    (hroom : mapGet st.cloakRooms R = some room) :
    ∀ room2, mapGet ((handleCloakJoin st c2 now r2 p2 a2).1).cloakRooms R =
      some room2 → room2.password = room.password := by
  intro room2 h2
  unfold handleCloakJoin at h2
  cases hcon : mapGet st.conns c2 with
  | none =>
    simp only [hcon] at h2
    rw [hroom] at h2
    injection h2 with h2
    rw [← h2]
  | some conn =>
    simp only [hcon] at h2
    by_cases htr : strTruthy r2 = true
    · rw [if_pos htr] at h2
      have hR1 : mapGet (ensureRoom st (r2.getD "") p2 now).cloakRooms R =
          some room := ensureRoom_get_of_some st (r2.getD "") R p2 now room hroom
      cases hrm : mapGet (ensureRoom st (r2.getD "") p2 now).cloakRooms
          (r2.getD "") with
      | none =>
        simp only [hrm] at h2
        rw [hR1] at h2
        injection h2 with h2
        rw [← h2]
      | some roomA =>
        simp only [hrm] at h2
        by_cases hpw : strTruthy roomA.password = true
        · rw [if_pos hpw] at h2
          by_cases hp2 : strTruthy p2 = true
          · rw [if_pos hp2] at h2
            by_cases hcmp : bcryptCompare (p2.getD "")
                (roomA.password.getD "") = true
            · rw [if_pos hcmp] at h2
              exact cloakJoinAdmit_password_at _ c2 conn _ roomA a2 R room
                hR1 hrm room2 h2
            · rw [if_neg hcmp] at h2
              rw [hR1] at h2
              injection h2 with h2
              rw [← h2]
          · rw [if_neg hp2] at h2
            rw [hR1] at h2
            injection h2 with h2
            rw [← h2]
        · rw [if_neg hpw] at h2
          exact cloakJoinAdmit_password_at _ c2 conn _ roomA a2 R room
            hR1 hrm room2 h2
    · rw [if_neg htr] at h2
      rw [hroom] at h2
      injection h2 with h2
      rw [← h2]

/-- Room teardown on close never changes the password digest of a room
that persists through the step (unique room keys, as for a JS Map). -/
theorem limpiarRoom_password_at (st : ServerState) (c2 : Nat) (conn : Conn)
    (R : String) (room : Room)
    (hroom : mapGet st.cloakRooms R = some room)
    (hnd : (st.cloakRooms.map Prod.fst).Nodup) :
    ∀ room2, mapGet ((limpiarRoom st c2 conn).1).cloakRooms R = some room2 →
      room2.password = room.password := by
  intro room2 h2
  unfold limpiarRoom at h2
  by_cases htr : strTruthy conn.room = true
  · rw [if_pos htr] at h2
    cases hrm : mapGet st.cloakRooms (conn.room.getD "") with
    | none =>
      simp only [hrm] at h2
      rw [hroom] at h2
      injection h2 with h2
      rw [← h2]
    | some roomA =>
      simp only [hrm] at h2
      by_cases hemp :
          (setDelete roomA.clients c2).isEmpty = true
      · rw [if_pos hemp] at h2
        by_cases h : conn.room.getD "" = R
        · rw [h] at h2
          rw [mapGet_delete_self _ _
            (mapSet_keys_nodup _ _ _ hnd)] at h2
          exact absurd h2 (by simp)
        · rw [mapGet_delete_ne _ _ _ (Ne.symm h),
            mapGet_set_ne _ _ _ _ (Ne.symm h), hroom] at h2
          injection h2 with h2
          rw [← h2]
      · rw [if_neg hemp] at h2
        by_cases h : conn.room.getD "" = R
        · rw [h] at h2
          rw [mapGet_set_self] at h2
          rw [h, hroom] at hrm
          injection hrm with hra
          injection h2 with h2
          rw [← h2]
          show roomA.password = room.password
          rw [hra]
        · rw [mapGet_set_ne _ _ _ _ (Ne.symm h), hroom] at h2
          injection h2 with h2
          rw [← h2]
  · rw [if_neg htr] at h2
    rw [hroom] at h2
    injection h2 with h2
    rw [← h2]

/-- Password immutability: no single event changes an existing room's
password digest while the room persists. -/
theorem step_password_preserved (st : ServerState) (R : String) (room : Room)
    (hroom : mapGet st.cloakRooms R = some room)
    (hnd : (st.cloakRooms.map Prod.fst).Nodup) (e : Event) :
    ∀ room2, mapGet ((stepEv st e).1).cloakRooms R = some room2 →
      room2.password = room.password := by
  intro room2 h2
  cases e with
  | connect c wsid =>
    simp only [stepEv, connectConn] at h2
    rw [hroom] at h2
    injection h2 with h2
    rw [← h2]
  | join c now r p a =>
    exact handleCloakJoin_password_at st c now r p a R room hroom room2 h2
  | signal c payload t =>
    rw [show (stepEv st (Event.signal c payload t)).1 =
        (handleCloakSignal st c payload t).1 from rfl,
      handleCloakSignal_cloakRooms, hroom] at h2
    injection h2 with h2
    rw [← h2]
  | register c pid =>
    rw [show (stepEv st (Event.register c pid)).1 =
        (handleRegister st c pid).1 from rfl,
      handleRegister_cloakRooms, hroom] at h2
    injection h2 with h2
    rw [← h2]
  | findPeer c tid =>
    rw [show (stepEv st (Event.findPeer c tid)).1 =
        (handleFindPeer st c tid).1 from rfl,
      handleFindPeer_cloakRooms, hroom] at h2
    injection h2 with h2
    rw [← h2]
  | forward c tid payload =>
    rw [show (stepEv st (Event.forward c tid payload)).1 =
        (handleForward st c tid payload).1 from rfl,
      handleForward_cloakRooms, hroom] at h2
    injection h2 with h2
    rw [← h2]
  | expire tid r =>
    rw [show (stepEv st (Event.expire tid r)).1 =
        expirePending st tid r from rfl,
      expirePending_cloakRooms, hroom] at h2
    injection h2 with h2
    rw [← h2]
  | disconnect c =>
    have hdis : (stepEv st (Event.disconnect c)).1 = (disconnect st c).1 := rfl
    rw [hdis] at h2
    unfold disconnect at h2
    cases hcon : mapGet st.conns c with
    | none =>
      simp only [hcon] at h2
      rw [hroom] at h2
      injection h2 with h2
      rw [← h2]
    | some conn =>
      simp only [hcon] at h2
      unfold limpiarRecursos at h2
      rw [mapGet_set_self] at h2
      simp only [limpiarPeer_cloakRooms] at h2
      exact limpiarRoom_password_at
        { st with conns := mapSet st.conns c { conn with isOpen := false } }
        c { conn with isOpen := false } R room hroom hnd room2 h2

theorem ensureRoom_of_some (st : ServerState) (R : String)
    (pw : Option String) (now : Nat)
    (h : (mapGet st.cloakRooms R).isSome = true) :
    ensureRoom st R pw now = st := by
  unfold ensureRoom
  rw [if_pos h]

/-! ## Claim C10 -/

/-- C10: a second successful `join` of the room a connection is already a
member of leaves the member set unchanged (set insertion of an existing
element) and its `joined` response still lists the other members only,
excluding the joiner itself. -/
theorem C10_rejoin_idempotent :
    ∀ (st : ServerState) (c : Nat) (conn : Conn) (now : Nat) (R : String)
      (pw a : Option String) (room : Room),
      mapGet st.conns c = some conn → R ≠ "" →
      mapGet st.cloakRooms R = some room → c ∈ room.clients →
      (strTruthy room.password = false ∨
        (∃ p, pw = some p ∧ p ≠ "" ∧ room.password = some (bcryptHash p))) →
      roomClientsAt ((stepEv st (Event.join c now (some R) pw a)).1) R =
        room.clients ∧
      joinedPeers ((stepEv st (Event.join c now (some R) pw a)).2) c =
        some (room.clients.filterMap
          (fun m => if m = c then none else peerEntry st m)) := by
  intro st c conn now R pw a room hc hR hroom hmem hgate
  have hstep : handleCloakJoin st c now (some R) pw a =
      cloakJoinAdmit st c conn R room a :=
    handleCloakJoin_success st c conn now R pw a room hc hR hroom hgate
  constructor
  · show roomClientsAt ((handleCloakJoin st c now (some R) pw a).1) R =
      room.clients
    rw [hstep]
    unfold roomClientsAt
    rw [cloakJoinAdmit_cloakRooms, mapGet_set_self]
    simp [setAdd_of_mem hmem]
  · show joinedPeers ((handleCloakJoin st c now (some R) pw a).2) c =
      some (room.clients.filterMap
        (fun m => if m = c then none else peerEntry st m))
    rw [hstep, cloakJoinAdmit_joinedPeers, setAdd_of_mem hmem]
    congr 1
    apply List.filterMap_congr
    intro m _
    by_cases hmc : m = c
    · simp [hmc]
    · simp only [if_neg hmc]
      unfold peerEntry
      rw [show ({ st with conns := mapSet st.conns c { conn with room := some R, aliasName := some (resolveAlias a) } } : ServerState).conns = mapSet st.conns c { conn with room := some R, aliasName := some (resolveAlias a) } from rfl]
      rw [mapGet_set_ne _ _ _ _ hmc]

/-- Witness for C10: conn 1 is already in open room "R" with conn 2;
re-joining leaves the member set `[2, 1]` unchanged and the response peers
list only conn 2. -/
theorem C10_rejoin_idempotent_witness :
    roomClientsAt ((stepEv
        ⟨[(1, ⟨"a1", some "R", some "A", none, true⟩),
          (2, ⟨"b2", some "R", some "B", none, true⟩)],
         [("R", ⟨[2, 1], none, 0⟩)], none, []⟩
        (Event.join 1 5 (some "R") none none)).1) "R" = [2, 1] ∧
    joinedPeers ((stepEv
        ⟨[(1, ⟨"a1", some "R", some "A", none, true⟩),
          (2, ⟨"b2", some "R", some "B", none, true⟩)],
         [("R", ⟨[2, 1], none, 0⟩)], none, []⟩
        (Event.join 1 5 (some "R") none none)).2) 1 =
      some [("b2", "B")] := by
  have h := C10_rejoin_idempotent
    ⟨[(1, ⟨"a1", some "R", some "A", none, true⟩),
      (2, ⟨"b2", some "R", some "B", none, true⟩)],
     [("R", ⟨[2, 1], none, 0⟩)], none, []⟩
    1 ⟨"a1", some "R", some "A", none, true⟩ 5 "R" none none
    ⟨[2, 1], none, 0⟩
    (by decide) (by decide) (by decide) (by decide) (Or.inl (by decide))
  exact ⟨h.1, h.2.trans (by decide)⟩

/-! ## Claim C5 -/

/-- C5: for a room whose password digest was set at creation, a subsequent
join with an absent/empty password receives exactly one "Password
required" error and the state is completely unchanged (no broadcast, no
membership change); a join with a wrong password receives exactly one
"Wrong password" error, state unchanged; a join presenting the original
password succeeds (the joiner enters the member set and gets a `joined`
response); and no single event alters the room's digest while the room
persists — so the gate behaves the same after unrelated joins and leaves. -/
theorem C5_password_gate :
    ∀ (st : ServerState) (c : Nat) (conn : Conn) (now : Nat) (R p : String)
      (room : Room) (a : Option String),
      mapGet st.conns c = some conn → R ≠ "" → p ≠ "" →
      mapGet st.cloakRooms R = some room →
      room.password = some (bcryptHash p) →
      (st.cloakRooms.map Prod.fst).Nodup →
      (∀ q : Option String, strTruthy q = false →
        stepEv st (Event.join c now (some R) q a) =
          (st, [(c, OutMsg.errorMsg "Password required")])) ∧
      (∀ q : String, q ≠ "" → q ≠ p →
        stepEv st (Event.join c now (some R) (some q) a) =
          (st, [(c, OutMsg.errorMsg "Wrong password")])) ∧
      (c ∈ roomClientsAt
          ((stepEv st (Event.join c now (some R) (some p) a)).1) R ∧
        (joinedPeers
          ((stepEv st (Event.join c now (some R) (some p) a)).2) c).isSome =
          true) ∧
      (∀ (e : Event) (room2 : Room),
        mapGet ((stepEv st e).1).cloakRooms R = some room2 →
        room2.password = room.password) := by
  intro st c conn now R p room a hc hR hp hroom hdig hnd
  have hex : (mapGet st.cloakRooms R).isSome = true := by rw [hroom]; rfl
  have hphash : bcryptHash p ≠ "" := by simpa [bcryptHash] using hp
  refine ⟨?_, ?_, ?_, ?_⟩
  · intro q hq
    show handleCloakJoin st c now (some R) q a = _
    unfold handleCloakJoin
    simp only [hc, Option.getD_some]
    rw [if_pos (strTruthy_some_ne hR), ensureRoom_of_some st R q now hex]
    simp only [hroom]
    rw [hdig]
    rw [if_pos (strTruthy_some_ne hphash)]
    rw [if_neg (by rw [hq]; simp)]
  · intro q hq hqp
    show handleCloakJoin st c now (some R) (some q) a = _
    unfold handleCloakJoin
    simp only [hc, Option.getD_some]
    rw [if_pos (strTruthy_some_ne hR),
      ensureRoom_of_some st R (some q) now hex]
    simp only [hroom]
    rw [hdig]
    rw [if_pos (strTruthy_some_ne hphash)]
    rw [if_pos (strTruthy_some_ne hq)]
    rw [if_neg (by simp [bcryptCompare, bcryptHash, hqp])]
  · have hstep : handleCloakJoin st c now (some R) (some p) a =
        cloakJoinAdmit st c conn R room a :=
      handleCloakJoin_success st c conn now R (some p) a room hc hR hroom
        (Or.inr ⟨p, rfl, hp, hdig⟩)
    constructor
    · show c ∈ roomClientsAt ((handleCloakJoin st c now (some R)
        (some p) a).1) R
      rw [hstep]
      unfold roomClientsAt
      rw [cloakJoinAdmit_cloakRooms, mapGet_set_self]
      simpa using mem_setAdd_self room.clients c
    · show (joinedPeers ((handleCloakJoin st c now (some R)
        (some p) a).2) c).isSome = true
      rw [hstep, cloakJoinAdmit_joinedPeers]
      rfl
  · intro e room2 h2
    exact step_password_preserved st R room hroom hnd e room2 h2

/-- Witness for C5: room "R" was created with password "pw" by conn 2;
conn 1's join with no password and with "bad" each draw exactly one typed
error and change nothing, its join with "pw" succeeds, and a further
successful join leaves the digest intact. -/
theorem C5_password_gate_witness :
    stepEv ⟨[(1, ⟨"a1", none, none, none, true⟩),
             (2, ⟨"a2", some "R", some "A", none, true⟩)],
            [("R", ⟨[2], some "pw", 0⟩)], none, []⟩
        (Event.join 1 5 (some "R") none none) =
      (⟨[(1, ⟨"a1", none, none, none, true⟩),
         (2, ⟨"a2", some "R", some "A", none, true⟩)],
        [("R", ⟨[2], some "pw", 0⟩)], none, []⟩,
       [(1, OutMsg.errorMsg "Password required")]) ∧
    stepEv ⟨[(1, ⟨"a1", none, none, none, true⟩),
             (2, ⟨"a2", some "R", some "A", none, true⟩)],
            [("R", ⟨[2], some "pw", 0⟩)], none, []⟩
        (Event.join 1 5 (some "R") (some "bad") none) =
      (⟨[(1, ⟨"a1", none, none, none, true⟩),
         (2, ⟨"a2", some "R", some "A", none, true⟩)],
        [("R", ⟨[2], some "pw", 0⟩)], none, []⟩,
       [(1, OutMsg.errorMsg "Wrong password")]) ∧
    1 ∈ roomClientsAt ((stepEv ⟨[(1, ⟨"a1", none, none, none, true⟩),
             (2, ⟨"a2", some "R", some "A", none, true⟩)],
            [("R", ⟨[2], some "pw", 0⟩)], none, []⟩
        (Event.join 1 5 (some "R") (some "pw") none)).1) "R" ∧
    (⟨[2, 1], some "pw", 0⟩ : Room).password = some "pw" := by
  have h := C5_password_gate
    ⟨[(1, ⟨"a1", none, none, none, true⟩),
      (2, ⟨"a2", some "R", some "A", none, true⟩)],
     [("R", ⟨[2], some "pw", 0⟩)], none, []⟩
    1 ⟨"a1", none, none, none, true⟩ 5 "R" "pw" ⟨[2], some "pw", 0⟩ none
    (by decide) (by decide) (by decide) (by decide) (by decide) (by decide)
  exact ⟨h.1 none (by decide), h.2.1 "bad" (by decide) (by decide),
    h.2.2.1.1,
    h.2.2.2 (Event.join 1 5 (some "R") (some "pw") none)
      ⟨[2, 1], some "pw", 0⟩ (by decide)⟩

/-! ## Claim C8 -/

/-- C8: when a pending match for X exists whose requester is a distinct
open connection, `register(X)` sends exactly one `peer_found` to the
requester and one to the registrant (plus the `registered` ack, in program
order), deletes the pending match, and a repeated `register(X)` afterwards
sends no `peer_found` to anyone. -/
theorem C8_register_resolves_once :
    ∀ (st : ServerState) (r w : Nat) (rconn : Conn) (X : String),
      X ≠ "" →
      (st.pendingMatches.map Prod.fst).Nodup →
      mapGet st.pendingMatches X = some r →
      mapGet st.conns r = some rconn → rconn.isOpen = true →
      (mapGet st.conns w).isSome = true → w ≠ r →
      (stepEv st (Event.register w (some X))).2 =
        [(w, OutMsg.registered X), (r, OutMsg.peerFound (some X)),
         (w, OutMsg.peerFound rconn.peerId)] ∧
      mapGet ((stepEv st (Event.register w (some X))).1).pendingMatches X =
        none ∧
      (∀ (w2 d : Nat) (pid2 : Option String),
        (d, OutMsg.peerFound pid2) ∉
          (stepEv ((stepEv st (Event.register w (some X))).1)
            (Event.register w2 (some X))).2) := by
  intro st r w rconn X hX hnd hpm hr hro hw hwr
  have hres := register_resolution st r w rconn X hX hpm hr hro hw hwr
  have hnone : mapGet ((stepEv st
      (Event.register w (some X))).1).pendingMatches X = none := by
    show mapGet ((handleRegister st w (some X)).1).pendingMatches X = none
    rw [hres.2]
    exact mapGet_delete_self _ _ hnd
  exact ⟨hres.1, hnone,
    fun w2 d pid2 => register_no_match_sends _ w2 X hnone d pid2⟩

/-- Witness for C8: conn 1 does `find_peer("X")` (pending recorded), conn
2 registers "X": exactly the three sends occur, the match is gone, and a
further `register("X")` by conn 3 re-notifies nobody. -/
theorem C8_register_resolves_once_witness :
    (stepEv ⟨[(1, ⟨"a1", none, none, none, true⟩),
              (2, ⟨"a2", none, none, none, true⟩)], [], some [], [("X", 1)]⟩
      (Event.register 2 (some "X"))).2 =
      [(2, OutMsg.registered "X"), (1, OutMsg.peerFound (some "X")),
       (2, OutMsg.peerFound none)] ∧
    mapGet ((stepEv ⟨[(1, ⟨"a1", none, none, none, true⟩),
              (2, ⟨"a2", none, none, none, true⟩)], [], some [], [("X", 1)]⟩
      (Event.register 2 (some "X"))).1).pendingMatches "X" = none ∧
    ((1 : Nat), OutMsg.peerFound (some "X")) ∉
      (stepEv ((stepEv ⟨[(1, ⟨"a1", none, none, none, true⟩),
                (2, ⟨"a2", none, none, none, true⟩)], [], some [],
                [("X", 1)]⟩
          (Event.register 2 (some "X"))).1)
        (Event.register 3 (some "X"))).2 := by
  have h := C8_register_resolves_once
    ⟨[(1, ⟨"a1", none, none, none, true⟩),
      (2, ⟨"a2", none, none, none, true⟩)], [], some [], [("X", 1)]⟩
    1 2 ⟨"a1", none, none, none, true⟩ "X"
    (by decide) (by decide) (by decide) (by decide) (by decide) (by decide)
    (by decide)
  exact ⟨h.1, h.2.1, h.2.2 3 1 (some "X")⟩

/-! ## Claim C9 -/

/-- C9: the `peer_found` sent to the newly registered peer (the third send
of the resolution) carries the requester's `peerId` field; when the
requester never registered, that field is `undefined`/absent (`none`). -/
theorem C9_peer_found_peerId_field :
    ∀ (st : ServerState) (r w : Nat) (rconn : Conn) (X : String),
      X ≠ "" →
      mapGet st.pendingMatches X = some r →
      mapGet st.conns r = some rconn → rconn.isOpen = true →
      (mapGet st.conns w).isSome = true → w ≠ r →
      ((stepEv st (Event.register w (some X))).2).get? 2 =
        some (w, OutMsg.peerFound rconn.peerId) ∧
      (rconn.peerId = none →
        ((stepEv st (Event.register w (some X))).2).get? 2 =
          some (w, OutMsg.peerFound none)) := by
  intro st r w rconn X hX hpm hr hro hw hwr
  have hres := register_resolution st r w rconn X hX hpm hr hro hw hwr
  constructor
  · show ((handleRegister st w (some X)).2).get? 2 = _
    rw [hres.1]
    rfl
  · intro hnp
    show ((handleRegister st w (some X)).2).get? 2 = _
    rw [hres.1, hnp]
    rfl

/-- Witness for C9: the requester never registered, so the registrant's
`peer_found` has no peer id. -/
theorem C9_peer_found_peerId_field_witness :
    ((stepEv ⟨[(1, ⟨"a1", none, none, none, true⟩),
               (2, ⟨"a2", none, none, none, true⟩)], [], some [],
              [("X", 1)]⟩
        (Event.register 2 (some "X"))).2).get? 2 =
      some (2, OutMsg.peerFound none) :=
  (C9_peer_found_peerId_field
    ⟨[(1, ⟨"a1", none, none, none, true⟩),
      (2, ⟨"a2", none, none, none, true⟩)], [], some [], [("X", 1)]⟩
    1 2 ⟨"a1", none, none, none, true⟩ "X"
    (by decide) (by decide) (by decide) (by decide) (by decide)
    (by decide)).2 rfl

/-! ## Claim C6 -/

theorem runEvents_cons_snd (st : ServerState) (e : Event) (es : List Event) :
    (runEvents st (e :: es)).2 =
      (stepEv st e).2 :: (runEvents (stepEv st e).1 es).2 :=
  rfl

theorem mkJoins_cons (R : String) (now : Nat) (j : Nat × Option String)
    (rest : List (Nat × Option String)) :
    mkJoins R now (j :: rest) =
      Event.join j.1 now (some R) none j.2 :: mkJoins R now rest :=
  rfl

theorem cloakJoinAdmit_conns (st : ServerState) (c : Nat) (conn : Conn)
    (R : String) (room : Room) (a : Option String) :
    ((cloakJoinAdmit st c conn R room a).1).conns =
      mapSet st.conns c
        { conn with room := some R, aliasName := some (resolveAlias a) } :=
  rfl

/-- Over members whose records exist and that are not the joiner, the
`joined` peers computation is the id/alias projection. -/
theorem filterMap_peerEntry_eq_map (st : ServerState) (c : Nat) :
    ∀ (done : List Nat),
      (∀ d ∈ done, (mapGet st.conns d).isSome = true) → c ∉ done →
      done.filterMap (fun m => if m = c then none else peerEntry st m) =
        done.map (fun d => dirPair st d) := by
  intro done
  induction done with
  | nil => intro _ _; rfl
  | cons d rest ih =>
    intro hall hnc
    obtain ⟨cd, hcd⟩ := Option.isSome_iff_exists.mp
      (hall d (List.mem_cons_self d rest))
    have hdc : ¬ d = c := by
      intro hh
      exact hnc (by rw [← hh]; exact List.mem_cons_self d rest)
    rw [List.filterMap_cons_some
      (f := fun m => if m = c then none else peerEntry st m)
      (show (if d = c then none else peerEntry st d) =
          some (cd.id, cd.aliasName.getD "") from by
        rw [if_neg hdc]
        unfold peerEntry
        rw [hcd]
        rfl)]
    rw [List.map_cons]
    rw [ih (fun x hx => hall x (List.mem_cons_of_mem _ hx))
      (fun hh => hnc (List.mem_cons_of_mem _ hh))]
    congr 1
    unfold dirPair connIdAt connAliasAt
    rw [hcd]
    rfl

/-- Connection ids are untouched by admission; alias/id pairs of other
members are untouched; the joiner's pair becomes (its id, resolved alias);
record existence is preserved. -/
theorem cloakJoinAdmit_dir (st : ServerState) (c : Nat) (conn : Conn)
    (R : String) (room : Room) (a : Option String)
    (hc : mapGet st.conns c = some conn) :
    (∀ x, connIdAt ((cloakJoinAdmit st c conn R room a).1) x =
      connIdAt st x) ∧
    (∀ x, x ≠ c →
      dirPair ((cloakJoinAdmit st c conn R room a).1) x = dirPair st x) ∧
    dirPair ((cloakJoinAdmit st c conn R room a).1) c =
      (connIdAt st c, resolveAlias a) ∧
    (∀ x, (mapGet st.conns x).isSome = true →
      (mapGet ((cloakJoinAdmit st c conn R room a).1).conns x).isSome =
        true) := by
  refine ⟨?_, ?_, ?_, ?_⟩
  · intro x
    unfold connIdAt
    rw [cloakJoinAdmit_conns]
    by_cases hx : x = c
    · subst hx
      rw [mapGet_set_self, hc]
      rfl
    · rw [mapGet_set_ne _ _ _ _ hx]
  · intro x hx
    unfold dirPair connIdAt connAliasAt
    rw [cloakJoinAdmit_conns, mapGet_set_ne _ _ _ _ hx]
  · unfold dirPair connIdAt connAliasAt
    rw [cloakJoinAdmit_conns, mapGet_set_self, hc]
    rfl
  · intro x hx
    rw [cloakJoinAdmit_conns]
    by_cases hxc : x = c
    · subst hxc
      rw [mapGet_set_self]
      rfl
    · rw [mapGet_set_ne _ _ _ _ hxc]
      exact hx

/-- A `join` naming a fresh room with no password creates the open room
and runs the admission tail against it. -/
theorem handleCloakJoin_fresh (st : ServerState) (c : Nat) (conn : Conn)
    (now : Nat) (R : String) (a : Option String)
    (hc : mapGet st.conns c = some conn) (hR : R ≠ "")
    (hfresh : mapGet st.cloakRooms R = none) :
    handleCloakJoin st c now (some R) none a =
      cloakJoinAdmit
        { st with cloakRooms := mapSet st.cloakRooms R ⟨[], none, now⟩ }
        c conn R ⟨[], none, now⟩ a := by
  have hens : ensureRoom st R none now =
      { st with cloakRooms := mapSet st.cloakRooms R ⟨[], none, now⟩ } := by
    unfold ensureRoom
    rw [if_neg (by rw [hfresh]; simp)]
    rfl
  unfold handleCloakJoin
  simp only [hc, Option.getD_some]
  rw [if_pos (strTruthy_some_ne hR), hens]
  rw [show mapGet (mapSet st.cloakRooms R (⟨[], none, now⟩ : Room)) R =
    some ⟨[], none, now⟩ from mapGet_set_self _ _ _]
  rfl

/-- General step of the join sequence: starting from an existing open room
with members `done`, the i-th joiner's `joined` response lists `done` and
the joiners strictly before it, and nothing else. -/
theorem runJoins_spec (R : String) (now : Nat) (hR : R ≠ "") :
    ∀ (js : List (Nat × Option String)) (st : ServerState) (done : List Nat)
      (t : Nat),
      mapGet st.cloakRooms R = some ⟨done, none, t⟩ →
      (∀ p ∈ js, (mapGet st.conns p.1).isSome = true) →
      (∀ d ∈ done, (mapGet st.conns d).isSome = true) →
      (done ++ js.map Prod.fst).Nodup →
      ∀ i, i < js.length →
        joinedPeers (((runEvents st (mkJoins R now js)).2).getD i [])
            (js.getD i (0, none)).1 =
          some (done.map (fun d => dirPair st d) ++
            (js.take i).map
              (fun p => (connIdAt st p.1, resolveAlias p.2))) := by
  intro js
  induction js with
  | nil =>
    intro st done t _ _ _ _ i hi
    exact absurd hi (by simp)
  | cons j rest ih =>
    obtain ⟨c0, a0⟩ := j
    intro st done t hroom hjs hdone hnd i hi
    obtain ⟨conn0, hconn0⟩ := Option.isSome_iff_exists.mp
      (hjs (c0, a0) (List.mem_cons_self _ _))
    have hnotin : c0 ∉ done := fun hmem =>
      (List.disjoint_of_nodup_append hnd) hmem (by simp)
    have hstep : stepEv st (Event.join c0 now (some R) none a0) =
        cloakJoinAdmit st c0 conn0 R ⟨done, none, t⟩ a0 :=
      handleCloakJoin_success st c0 conn0 now R none a0 ⟨done, none, t⟩
        hconn0 hR hroom (Or.inl rfl)
    have hdir := cloakJoinAdmit_dir st c0 conn0 R ⟨done, none, t⟩ a0 hconn0
    cases i with
    | zero =>
      rw [mkJoins_cons, runEvents_cons_snd, List.getD_cons_zero,
        List.getD_cons_zero, hstep, cloakJoinAdmit_joinedPeers,
        setAdd_of_not_mem hnotin, List.filterMap_append]
      rw [filterMap_peerEntry_eq_map
        { st with conns := mapSet st.conns c0 { conn0 with room := some R, aliasName := some (resolveAlias a0) } }
        c0 done (fun d hd => hdir.2.2.2 d (hdone d hd)) hnotin]
      have e1 : done.map (fun d =>
          dirPair { st with conns := mapSet st.conns c0 { conn0 with room := some R, aliasName := some (resolveAlias a0) } } d) =
          done.map (fun d => dirPair st d) :=
        List.map_congr_left (fun d hd => hdir.2.1 d (fun hh => hnotin (hh ▸ hd)))
      rw [e1]
      simp
    | succ i' =>
      have hi' : i' < rest.length := by simpa using hi
      rw [mkJoins_cons, runEvents_cons_snd, List.getD_cons_succ,
        List.getD_cons_succ, hstep]
      have hroom1 : mapGet
          ((cloakJoinAdmit st c0 conn0 R ⟨done, none, t⟩ a0).1).cloakRooms R =
          some ⟨done ++ [c0], none, t⟩ := by
        rw [cloakJoinAdmit_cloakRooms, mapGet_set_self,
          setAdd_of_not_mem hnotin]
      have hjs1 : ∀ p ∈ rest, (mapGet
          ((cloakJoinAdmit st c0 conn0 R ⟨done, none, t⟩ a0).1).conns
          p.1).isSome = true :=
        fun p hp => hdir.2.2.2 p.1 (hjs p (List.mem_cons_of_mem _ hp))
      have hdone1 : ∀ d ∈ done ++ [c0], (mapGet
          ((cloakJoinAdmit st c0 conn0 R ⟨done, none, t⟩ a0).1).conns
          d).isSome = true := by
        intro d hd
        rcases List.mem_append.mp hd with hd | hd
        · exact hdir.2.2.2 d (hdone d hd)
        · rw [List.mem_singleton.mp hd]
          exact hdir.2.2.2 c0 (by rw [hconn0]; rfl)
      have hnd1 : ((done ++ [c0]) ++ rest.map Prod.fst).Nodup := by
        rw [List.append_assoc]
        simpa using hnd
      have hih := ih ((cloakJoinAdmit st c0 conn0 R ⟨done, none, t⟩ a0).1)
        (done ++ [c0]) t hroom1 hjs1 hdone1 hnd1 i' hi'
      rw [hih]
      have e1 : done.map (fun d =>
          dirPair ((cloakJoinAdmit st c0 conn0 R ⟨done, none, t⟩ a0).1) d) =
          done.map (fun d => dirPair st d) :=
        List.map_congr_left (fun d hd => hdir.2.1 d (fun hh => hnotin (hh ▸ hd)))
      have e2 : (rest.take i').map (fun p =>
          (connIdAt ((cloakJoinAdmit st c0 conn0 R ⟨done, none, t⟩ a0).1) p.1,
            resolveAlias p.2)) =
          (rest.take i').map
            (fun p => (connIdAt st p.1, resolveAlias p.2)) :=
        List.map_congr_left (fun p _ => by rw [hdir.1 p.1])
      have ec : dirPair ((cloakJoinAdmit st c0 conn0 R ⟨done, none, t⟩ a0).1)
          c0 = (connIdAt st c0, resolveAlias a0) := hdir.2.2.1
      rw [List.map_append, e1, e2]
      simp [ec, List.take_succ_cons]

/-- C6: for every sequence of joins by distinct connections to a fresh
room with no password, the i-th joiner's `joined` response lists exactly
the pairs (id, alias) of the joiners strictly before it — in particular
never the joiner itself. -/
theorem C6_joined_peers :
    ∀ (st : ServerState) (R : String) (now : Nat)
      (js : List (Nat × Option String)),
      R ≠ "" →
      mapGet st.cloakRooms R = none →
      (∀ p ∈ js, (mapGet st.conns p.1).isSome = true) →
      (js.map Prod.fst).Nodup →
      ∀ i, i < js.length →
        joinedPeers (((runEvents st (mkJoins R now js)).2).getD i [])
            (js.getD i (0, none)).1 =
          some ((js.take i).map
            (fun p => (connIdAt st p.1, resolveAlias p.2))) := by
  intro st R now js hR hfresh hjs hnd
  cases js with
  | nil =>
    intro i hi
    exact absurd hi (by simp)
  | cons j rest =>
    obtain ⟨c0, a0⟩ := j
    intro i hi
    obtain ⟨conn0, hconn0⟩ := Option.isSome_iff_exists.mp
      (hjs (c0, a0) (List.mem_cons_self _ _))
    have hstep : stepEv st (Event.join c0 now (some R) none a0) =
        cloakJoinAdmit
          { st with cloakRooms := mapSet st.cloakRooms R ⟨[], none, now⟩ }
          c0 conn0 R ⟨[], none, now⟩ a0 :=
      handleCloakJoin_fresh st c0 conn0 now R a0 hconn0 hR hfresh
    have hdir := cloakJoinAdmit_dir
      { st with cloakRooms := mapSet st.cloakRooms R ⟨[], none, now⟩ }
      c0 conn0 R ⟨[], none, now⟩ a0 hconn0
    cases i with
    | zero =>
      rw [mkJoins_cons, runEvents_cons_snd, List.getD_cons_zero,
        List.getD_cons_zero, hstep, cloakJoinAdmit_joinedPeers]
      simp [setAdd]
    | succ i' =>
      have hi' : i' < rest.length := by simpa using hi
      rw [mkJoins_cons, runEvents_cons_snd, List.getD_cons_succ,
        List.getD_cons_succ, hstep]
      have hroom1 : mapGet ((cloakJoinAdmit
          { st with cloakRooms := mapSet st.cloakRooms R ⟨[], none, now⟩ }
          c0 conn0 R ⟨[], none, now⟩ a0).1).cloakRooms R =
          some ⟨[c0], none, now⟩ := by
        rw [cloakJoinAdmit_cloakRooms, mapGet_set_self]
        rfl
      have hjs1 : ∀ p ∈ rest, (mapGet ((cloakJoinAdmit
          { st with cloakRooms := mapSet st.cloakRooms R ⟨[], none, now⟩ }
          c0 conn0 R ⟨[], none, now⟩ a0).1).conns p.1).isSome = true :=
        fun p hp => hdir.2.2.2 p.1 (hjs p (List.mem_cons_of_mem _ hp))
      have hdone1 : ∀ d ∈ ([c0] : List Nat), (mapGet ((cloakJoinAdmit
          { st with cloakRooms := mapSet st.cloakRooms R ⟨[], none, now⟩ }
          c0 conn0 R ⟨[], none, now⟩ a0).1).conns d).isSome = true := by
        intro d hd
        rw [List.mem_singleton.mp hd]
        exact hdir.2.2.2 c0 (by rw [hconn0]; rfl)
      have hnd1 : (([c0] : List Nat) ++ rest.map Prod.fst).Nodup := by
        simpa using hnd
      have hih := runJoins_spec R now hR rest ((cloakJoinAdmit
          { st with cloakRooms := mapSet st.cloakRooms R ⟨[], none, now⟩ }
          c0 conn0 R ⟨[], none, now⟩ a0).1) [c0] now
        hroom1 hjs1 hdone1 hnd1 i' hi'
      rw [hih]
      have e2 : (rest.take i').map (fun p =>
          (connIdAt ((cloakJoinAdmit
            { st with cloakRooms := mapSet st.cloakRooms R ⟨[], none, now⟩ }
            c0 conn0 R ⟨[], none, now⟩ a0).1) p.1, resolveAlias p.2)) =
          (rest.take i').map
            (fun p => (connIdAt st p.1, resolveAlias p.2)) :=
        List.map_congr_left (fun p _ => by rw [hdir.1 p.1]; rfl)
      have ec : dirPair ((cloakJoinAdmit
          { st with cloakRooms := mapSet st.cloakRooms R ⟨[], none, now⟩ }
          c0 conn0 R ⟨[], none, now⟩ a0).1) c0 =
          (connIdAt st c0, resolveAlias a0) := hdir.2.2.1
      rw [e2]
      simp [ec, List.take_succ_cons]

/-- Witness for C6: two distinct connections join fresh room "R"; the
second joiner's response lists exactly the first joiner's id/alias pair. -/
theorem C6_joined_peers_witness :
    joinedPeers (((runEvents
        ⟨[(1, ⟨"a1", none, none, none, true⟩),
          (2, ⟨"a2", none, none, none, true⟩)], [], none, []⟩
        (mkJoins "R" 7 [(1, some "x"), (2, none)])).2).getD 1 []) 2 =
      some [("a1", "x")] := by
  have h := C6_joined_peers
    ⟨[(1, ⟨"a1", none, none, none, true⟩),
      (2, ⟨"a2", none, none, none, true⟩)], [], none, []⟩
    "R" 7 [(1, some "x"), (2, none)]
    (by decide) (by decide) (by decide) (by decide) 1 (by decide)
  simpa using h

end CloaksSignalin

